import Mathlib

/-!
Verification of the in-memory file/search model of the Advanced File Manager
(src/script.js).  JavaScript strings are modelled as `List Char`; a record's
`content` is either a string (decoded text or a data URL) or an opaque byte
buffer (`ArrayBuffer`); epoch-millisecond timestamps are `Int`.
-/

namespace AFM

/-- The `file.content` field: a JS string, or an `ArrayBuffer` for binary
reads (`reader.readAsArrayBuffer`). -/
inductive Content where
  | str (chars : List Char)
  | buffer (bytes : List Nat)
deriving DecidableEq

/-- One entry of `this.files`, as built in `processFileAsync` (script.js
lines 698-714). -/
structure FileRec where
  id : Nat
  name : List Char
  size : Nat
  type : List Char
  lastModified : Int
  relativePath : List Char
  content : Content
  isImage : Bool
  isVideo : Bool
  isAudio : Bool
  isBinary : Bool
  isHTML : Bool
deriving DecidableEq

/-- A raw input file as handed to `handleFileSelect` (the fields the
validation loop reads). -/
structure RawFile where
  name : List Char
  size : Nat
  type : List Char
  lastModified : Int
deriving DecidableEq

/-- JS `String.prototype.toLowerCase` restricted to the character-by-character
case map (ASCII-faithful). -/
def jsToLower (c : Char) : Char := c.toLower

/-- Lowercase a JS string. -/
def lowerStr (s : List Char) : List Char := s.map jsToLower

/-- The spec's `mediaType` classification, read off the record's flags in
the dispatch order of `createFileContentDisplay` (script.js lines
2106-2238): the HTML branch is tested first, then image/video/audio, then
binary, and everything else renders as text. -/
inductive MediaType where
  | html
  | image
  | video
  | audio
  | binary
  | textual
deriving DecidableEq

/-- Classify a record the way the renderer dispatches on it. -/
def mediaTypeOf (f : FileRec) : MediaType :=
  if f.isHTML then .html
  else if f.isImage then .image
  else if f.isVideo then .video
  else if f.isAudio then .audio
  else if f.isBinary then .binary
  else .textual

/-! ### Search Index (`findAllMatches`, `getMatchPositions`) -/

/-- Which field of the record a search match was found in. -/
inductive MatchField where
  | name
  | content
deriving DecidableEq

/-- One entry of `this.searchMatches` (script.js lines 1354-1359 and
1368-1374). -/
structure SearchMatch where
  fileId : Nat
  field : MatchField
  position : Nat
  matchIndex : Nat
deriving DecidableEq

/-- All positions (in increasing order) at which `term` occurs in the
already-lowercased text, starting at offset `pos`.  The JS loop in
`getMatchPositions` (script.js lines 1390-1398) repeatedly calls
`indexOf(searchTerm, index + 1)`, which collects exactly every occurrence
start, left to right, advancing one character past each found start. -/
def matchPositionsAux (term : List Char) : List Char → Nat → List Nat
  | [], _ => []
  | c :: rest, pos =>
      (if term.isPrefixOf (c :: rest) then [pos] else []) ++
        matchPositionsAux term rest (pos + 1)

/-- JS `getMatchPositions(text, searchTerm)` (script.js lines 1387-1405):
guard on falsy arguments (empty strings), lowercase the text, scan.  The
stored search term is already lowercase (`handleSearch`, line 1282). -/
def getMatchPositions (text term : List Char) : List Nat :=
  if text.isEmpty || term.isEmpty then []
  else matchPositionsAux term (lowerStr text) 0

/-- The matches contributed by one record's `name` (script.js lines
1349-1360): `forEach((position, index))` pushes
`{fileId, type: "name", position, matchIndex: index}`. -/
def nameMatchesOf (f : FileRec) (term : List Char) : List SearchMatch :=
  (getMatchPositions f.name term).enum.map
    (fun p => { fileId := f.id, field := .name, position := p.2, matchIndex := p.1 })

/-- The matches contributed by one record's `content` (script.js lines
1362-1376): scanned only when `typeof file.content === "string"` and
`!file.isBinary`. -/
def contentMatchesOf (f : FileRec) (term : List Char) : List SearchMatch :=
  match f.content with
  | .str s =>
      if f.isBinary then []
      else
        (getMatchPositions s term).enum.map
          (fun p => { fileId := f.id, field := .content, position := p.2, matchIndex := p.1 })
  | .buffer _ => []

/-- JS `findAllMatches` (script.js lines 1342-1385): `this.files.forEach`
appends each record's name matches, then its content matches, to the
accumulated `this.searchMatches`. -/
def findAllMatches (files : List FileRec) (term : List Char) : List SearchMatch :=
  files.foldl (fun acc f => (acc ++ nameMatchesOf f term) ++ contentMatchesOf f term) []

/-! ### Render filter (`renderFiles`, script.js lines 1771-1779) -/

/-- JS `String.prototype.includes`: `jsIncludes pat text` holds when `pat`
occurs as a contiguous substring of `text`. -/
def jsIncludes (pat : List Char) : List Char → Bool
  | [] => pat.isPrefixOf ([] : List Char)
  | c :: rest => pat.isPrefixOf (c :: rest) || jsIncludes pat rest

/-- The search filter applied by `renderFiles`: with a non-empty (already
lowercased) search term, keep the records whose lowercased name contains
the term or whose content is a string whose lowercased form contains the
term. -/
def renderFilteredFiles (files : List FileRec) (term : List Char) : List FileRec :=
  if term.isEmpty then files
  else
    files.filter fun f =>
      jsIncludes term (lowerStr f.name) ||
        (match f.content with
          | .str s => jsIncludes term (lowerStr s)
          | .buffer _ => false)

/-- The claim's filter predicate, written as the spec phrases it: the
record's name contains the term case-insensitively, or its content is a
string containing the term case-insensitively. -/
def containsCI (text pat : List Char) : Bool :=
  jsIncludes (lowerStr pat) (lowerStr text)

/-- Spec-side predicate for claim C10. -/
def specRenderPred (term : List Char) (f : FileRec) : Bool :=
  containsCI f.name term ||
    (match f.content with
      | .str s => containsCI s term
      | .buffer _ => false)

/-! ### Store mutation: rename (`saveFileName`, script.js lines 2624-2673) -/

/-- Update the first element satisfying `p` (JS `Array.prototype.find`
returns a reference that is then mutated in place, so only the first
matching record changes and every record keeps its position). -/
def updateFirst (p : α → Bool) (g : α → α) : List α → List α
  | [] => []
  | x :: xs => if p x then g x :: xs else x :: updateFirst p g xs

/-- The characters rejected by `saveFileName`'s validation regex
`/[<>:"\/\\|?*]/` (script.js line 2654).  Note: unlike the ingestion
filename regex (line 518) it has no control-character range. -/
def reservedChar (c : Char) : Bool :=
  c == '<' || c == '>' || c == ':' || c == '"' || c == '/' ||
    c == '\\' || c == '|' || c == '?' || c == '*'

/-- The WhiteSpace/LineTerminator set removed by
`String.prototype.trim`. -/
def jsWhitespace (c : Char) : Bool :=
  c == ' ' || c == '\t' || c == '\n' || c == '\r' ||
    c == '\u000B' || c == '\u000C' || c.toNat == 0xA0 || c.toNat == 0xFEFF ||
    c.toNat == 0x1680 || (0x2000 ≤ c.toNat && c.toNat ≤ 0x200A) ||
    c.toNat == 0x2028 || c.toNat == 0x2029 || c.toNat == 0x202F ||
    c.toNat == 0x205F || c.toNat == 0x3000

/-- JS `String.prototype.trim`: drop leading and trailing whitespace. -/
def jsTrim (s : List Char) : List Char :=
  ((s.dropWhile jsWhitespace).reverse.dropWhile jsWhitespace).reverse

/-- Outcome of `saveFileName`.  Every non-success outcome only shows a
toast; the store is untouched. -/
inductive RenameResult where
  | success
  | notFound
  | emptyName
  | invalidName
deriving DecidableEq

/-- JS `saveFileName(fileId)` with the edit input's value `rawInput`
(script.js lines 2624-2673): find the record, trim the input, reject empty
or reserved-character names, otherwise set both `name` and `relativePath`
to the new name (lines 2661-2662). -/
def saveFileName (files : List FileRec) (fileId : Nat) (rawInput : List Char) :
    List FileRec × RenameResult :=
  match files.find? (fun f => f.id == fileId) with
  | none => (files, .notFound)
  | some _ =>
      let newName := jsTrim rawInput
      if newName.isEmpty then (files, .emptyName)
      else if newName.any reservedChar then (files, .invalidName)
      else
        (updateFirst (fun f => f.id == fileId)
          (fun f => { f with name := newName, relativePath := newName }) files,
          .success)

/-! ### Store mutation: edit content (`saveFileContent`, script.js lines
2688-2745) -/

/-- JS `String.prototype.length` of a list of code points: UTF-16 code
units (2 for supplementary-plane characters, 1 otherwise). -/
def utf16Units (c : Char) : Nat := if c.toNat < 0x10000 then 1 else 2

/-- The value `saveFileContent` assigns to `file.size`
(`newContent.length`, line 2718). -/
def jsStringLength (s : List Char) : Nat := (s.map utf16Units).sum

/-- UTF-8 byte length of a list of code points, as the spec's
`size: byte length` reads. -/
def utf8Bytes (c : Char) : Nat :=
  if c.toNat ≤ 0x7F then 1
  else if c.toNat ≤ 0x7FF then 2
  else if c.toNat ≤ 0xFFFF then 3
  else 4

/-- Spec-side byte length of a string. -/
def utf8ByteLength (s : List Char) : Nat := (s.map utf8Bytes).sum

/-- Whether `createFileContentDisplay` renders an edit textarea
(`content-textarea-...`) for the record: only its first branch (`isHTML`)
and its final text branch do; the image/video/audio and binary branches
render no editor (script.js lines 2106-2238). -/
def hasContentEditor (f : FileRec) : Bool :=
  f.isHTML || (!f.isImage && !f.isVideo && !f.isAudio && !f.isBinary)

/-- Outcome of `saveFileContent`. `noEditor` is the abort at the DOM
element check when the record was rendered without a textarea (the
NotEditableError of the spec's taxonomy); `notFound` is the missing-record
abort.  Both leave the store untouched. -/
inductive EditResult where
  | success
  | notFound
  | noEditor
deriving DecidableEq

/-- JS `saveFileContent(fileId)` with the textarea's value `newContent`
(script.js lines 2688-2745), composed with the rendering gate: the
textarea read at line 2693 exists only when `hasContentEditor` holds, so
for other records the function aborts at the element check with nothing
changed.  On success it sets `content` to the new string and `size` to its
JS string length (lines 2717-2718). -/
def saveFileContent (files : List FileRec) (fileId : Nat) (newContent : List Char) :
    List FileRec × EditResult :=
  match files.find? (fun f => f.id == fileId) with
  | none => (files, .notFound)
  | some f =>
      if hasContentEditor f then
        (updateFirst (fun g => g.id == fileId)
          (fun g => { g with content := .str newContent, size := jsStringLength newContent })
          files,
          .success)
      else (files, .noEditor)

/-! ### Reorder (`handleDragDrop`, script.js lines 2450-2481) -/

/-- The reorder performed on `this.files`: a drop of the block at
`srcIdx` onto the distinct block at `tgtIdx` splices the dragged record
out and reinserts it at `tgtIdx - 1` when moving down, `tgtIdx` when
moving up (lines 2466-2472).  Equal indices (dropping an element onto
itself) and out-of-range sources are no-ops. -/
def moveFile (files : List α) (srcIdx tgtIdx : Nat) : List α :=
  if srcIdx = tgtIdx then files
  else
    match files[srcIdx]? with
    | none => files
    | some a =>
        (files.eraseIdx srcIdx).insertIdx
          (if srcIdx < tgtIdx then tgtIdx - 1 else tgtIdx) a

/-! ### Ingestion validation (`handleFileSelect`, script.js lines
440-655) -/

/-- The 50MB ceiling of the validation loop (line 455). -/
def maxFileSize : Nat := 50 * 1024 * 1024

/-- The `allowedTypes` set of the validation loop (lines 456-472). -/
def allowedTypes : List (List Char) :=
  ["text/plain".toList, "text/html".toList, "text/css".toList,
   "text/javascript".toList, "application/json".toList, "text/markdown".toList,
   "text/xml".toList, "text/csv".toList, "image/jpeg".toList, "image/png".toList,
   "image/gif".toList, "image/svg+xml".toList, "video/mp4".toList,
   "audio/mp3".toList, "application/pdf".toList]

/-- The extension allow-list of `isTextFile` (script.js lines 657-684). -/
def textExtensions : List (List Char) :=
  [".txt".toList, ".md".toList, ".js".toList, ".ts".toList, ".jsx".toList,
   ".tsx".toList, ".css".toList, ".scss".toList, ".html".toList, ".xml".toList,
   ".json".toList, ".yaml".toList, ".yml".toList, ".py".toList, ".java".toList,
   ".cpp".toList, ".c".toList, ".php".toList, ".rb".toList, ".go".toList,
   ".sql".toList, ".sh".toList]

/-- Index of the last occurrence of `c` in `s`, if any
(`String.prototype.lastIndexOf`). -/
def jsLastIndexOf (c : Char) (s : List Char) : Option Nat :=
  (s.enum.filter (fun p => p.2 == c)).foldl (fun _ p => some p.1) none

/-- JS `isTextFile(filename)` (script.js lines 657-684):
`filename.toLowerCase().substring(filename.lastIndexOf("."))` — JS
`substring(-1)` clamps to 0, so a dot-free name is compared whole. -/
def isTextFile (name : List Char) : Bool :=
  let lowered := lowerStr name
  let ext := lowered.drop ((jsLastIndexOf '.' name).getD 0)
  textExtensions.contains ext

/-- The duplicate test of the validation loop (script.js lines 504-510):
same name, same size, and modification times within strictly less than
1000 milliseconds of each other. -/
def sameTriple (g : FileRec) (f : RawFile) : Prop :=
  g.name = f.name ∧ g.size = f.size ∧ (g.lastModified - f.lastModified).natAbs < 1000

instance (g : FileRec) (f : RawFile) : Decidable (sameTriple g f) := by
  unfold sameTriple; infer_instance

/-- JS `isDuplicate` (lines 505-510): some live record matches on all
three. -/
def isDuplicate (existing : List FileRec) (f : RawFile) : Bool :=
  existing.any (fun g => decide (sameTriple g f))

/-- The ingestion filename regex `/[<>:"\/\\|?*\x00-\x1f]/` (line 518):
reserved characters or C0 control characters. -/
def invalidFilenameChar (c : Char) : Bool :=
  reservedChar c || c.toNat < 0x20

/-- Why the validation loop skipped an input. -/
inductive RejectReason where
  | empty
  | tooLarge
  | unsupported
  | duplicate
  | invalidName
deriving DecidableEq

/-- One pass of the validation loop of `handleFileSelect` (script.js lines
479-529) against the current store: `none` means the input goes on to be
read and committed. -/
def validateOne (existing : List FileRec) (f : RawFile) : Option RejectReason :=
  if f.size = 0 then some .empty
  else if f.size > maxFileSize then some .tooLarge
  else if !(allowedTypes.contains f.type) && !(isTextFile f.name) then some .unsupported
  else if isDuplicate existing f then some .duplicate
  else if f.name.any invalidFilenameChar then some .invalidName
  else none

/-- The store's duplicate-freedom invariant as the spec states it: no two
live records share name, size, and approximate (strictly within one
second) modification time. -/
def recTriple (g h : FileRec) : Prop :=
  g.name = h.name ∧ g.size = h.size ∧ (g.lastModified - h.lastModified).natAbs < 1000

instance (g h : FileRec) : Decidable (recTriple g h) := by
  unfold recTriple; infer_instance

/-- No two distinct live records agree on the duplicate triple. -/
def dupFree (files : List FileRec) : Prop :=
  List.Pairwise (fun g h => ¬ recTriple g h) files

instance (files : List FileRec) : Decidable (dupFree files) := by
  unfold dupFree; infer_instance

/-! ### Tree Projector (`buildFileTree`, script.js lines 1926-1954) -/

/-- A node of the tree object built by `buildFileTree`: the `__isFile`
marker, the `__file` reference (its record id), and the enumerable
string-keyed child properties in insertion order.  A fresh directory node
is `{}`; a fresh file node is `{__file: file, __isFile: true}`. -/
inductive JTree where
  | node (isFile : Bool) (fileId : Option Nat) (children : List (List Char × JTree))

/-- The `__isFile` marker of a node. -/
def JTree.isFile : JTree → Bool
  | node b _ _ => b

/-- The id of the `__file` reference of a node, if any. -/
def JTree.fileId : JTree → Option Nat
  | node _ i _ => i

/-- The child properties of a node, in insertion order. -/
def JTree.children : JTree → List (List Char × JTree)
  | node _ _ c => c

/-- A fresh `{}` directory node. -/
def JTree.emptyDir : JTree := .node false none []

/-- Property lookup `current[part]`. -/
def lookupChild (k : List Char) : List (List Char × JTree) → Option JTree
  | [] => none
  | (q, w) :: rest => if q = k then some w else lookupChild k rest

/-- Property update of an existing key (keys are unique because
`buildFileTree` only ever adds an absent key). -/
def setChild (k : List Char) (v : JTree) : List (List Char × JTree) → List (List Char × JTree)
  | [] => [(k, v)]
  | (q, w) :: rest => if q = k then (q, v) :: rest else (q, w) :: setChild k v rest

/-- JS `String.prototype.split("/")`. -/
def splitOnSlash : List Char → List (List Char)
  | [] => [[]]
  | c :: rest =>
      if c = '/' then [] :: splitOnSlash rest
      else
        match splitOnSlash rest with
        | [] => [[c]]
        | s :: ss => (c :: s) :: ss

/-- The `parts.forEach` body of `buildFileTree` (script.js lines
1936-1944): walk the path segments, creating a node only when the slot is
absent (`if (!current[part])`) — a file node at the last segment, `{}`
otherwise — and descend into whatever node now occupies the slot. -/
def insertPath (t : JTree) (parts : List (List Char)) (fid : Nat) : JTree :=
  match parts with
  | [] => t
  | [p] =>
      match lookupChild p t.children with
      | some _ => t
      | none => .node t.isFile t.fileId (t.children ++ [(p, .node true (some fid) [])])
  | p :: q :: rest =>
      match lookupChild p t.children with
      | some sub =>
          .node t.isFile t.fileId (setChild p (insertPath sub (q :: rest) fid) t.children)
      | none =>
          .node t.isFile t.fileId
            (t.children ++ [(p, insertPath JTree.emptyDir (q :: rest) fid)])

/-- JS `buildFileTree(files)` (script.js lines 1926-1954), with the
`useRelativePaths` toggle selecting the path split at line 1932. -/
def buildFileTree (files : List FileRec) (useRelativePaths : Bool) : JTree :=
  files.foldl
    (fun t f =>
      insertPath t
        (splitOnSlash (if useRelativePaths then f.relativePath else f.name)) f.id)
    JTree.emptyDir

/-! ### Concrete records used as test inputs -/

/-- A plain text record whose `relativePath` carries a directory prefix
(as produced by folder drag-drop). -/
def dirRec : FileRec := {
  id := 1,
  name := "a.txt".toList,
  size := 1,
  type := "text/plain".toList,
  lastModified := 0,
  relativePath := "dir/a.txt".toList,
  content := .str "x".toList,
  isImage := false,
  isVideo := false,
  isAudio := false,
  isBinary := false,
  isHTML := false }

/-- An image record: its content is a base64 data URL string, as
`reader.readAsDataURL` produces. -/
def imgRec : FileRec := {
  id := 7,
  name := "p.png".toList,
  size := 3,
  type := "image/png".toList,
  lastModified := 0,
  relativePath := "p.png".toList,
  content := .str "data:image/png;base64,qq".toList,
  isImage := true,
  isVideo := false,
  isAudio := false,
  isBinary := false,
  isHTML := false }

/-- An HTML record (non-textual `mediaType` in the spec's taxonomy, yet
rendered with an edit textarea). -/
def htmlRec : FileRec := {
  id := 3,
  name := "a.html".toList,
  size := 1,
  type := "text/html".toList,
  lastModified := 0,
  relativePath := "a.html".toList,
  content := .str "x".toList,
  isImage := false,
  isVideo := false,
  isAudio := false,
  isBinary := false,
  isHTML := true }

/-- A plain text record with a bare path. -/
def txtRec : FileRec := {
  id := 5,
  name := "a.txt".toList,
  size := 1,
  type := "text/plain".toList,
  lastModified := 0,
  relativePath := "a.txt".toList,
  content := .str "x".toList,
  isImage := false,
  isVideo := false,
  isAudio := false,
  isBinary := false,
  isHTML := false }

/-- Tree test record: a file at top-level path `a`. -/
def treeRecA : FileRec := { txtRec with id := 1, name := "a".toList, relativePath := "a".toList }

/-- Tree test record: a file at nested path `a/b`, so that `a` must also
act as a directory. -/
def treeRecB : FileRec := { txtRec with id := 2, name := "b".toList, relativePath := "a/b".toList }

/-- Duplicate-invariant test pair: same size and timestamp, different
names, so ingestion accepts both. -/
def dupRecA : FileRec := { txtRec with id := 1, name := "a.txt".toList, size := 4 }

/-- Second record of the duplicate-invariant test pair. -/
def dupRecB : FileRec := { txtRec with id := 2, name := "b.txt".toList, size := 4 }

/-- The store holding the duplicate-invariant test pair. -/
def dupStore : List FileRec := [dupRecA, dupRecB]

/-- A record used for the control-character rename test. -/
def ctrlRec : FileRec := { txtRec with id := 9 }

/-- A rename input containing the control character U+0001. -/
def ctrlName : List Char := ['\x01', 'b']

/-- A binary record: content was read as an `ArrayBuffer`. -/
def binRec : FileRec := {
  txtRec with
  id := 11,
  name := "a.bin".toList,
  type := "application/octet-stream".toList,
  relativePath := "a.bin".toList,
  isBinary := true,
  content := .buffer [0] }

/-- A raw input that duplicates `txtRec` up to a 500ms timestamp skew. -/
def rawDup : RawFile := {
  name := "a.txt".toList,
  size := 1,
  type := "text/plain".toList,
  lastModified := 500 }

/-! ### Helper lemmas -/

/-- Helper: `updateFirst` updates exactly the position at which `find?` found its
witness, leaving length and every other position intact. -/
theorem updateFirst_spec {α : Type} (p : α → Bool) (g : α → α) :
    ∀ (l : List α) (f : α), l.find? p = some f →
      ∃ i, ∃ hi : i < l.length, l.get ⟨i, hi⟩ = f ∧ updateFirst p g l = l.set i (g f)
  | [], f, h => by simp at h
  | x :: xs, f, h => by
      by_cases hp : p x = true
      · rw [List.find?_cons_of_pos _ hp] at h
        injection h with h
        subst h
        exact ⟨0, by simp, rfl, by simp [updateFirst, hp]⟩
      · rw [List.find?_cons_of_neg _ hp] at h
        obtain ⟨i, hi, hget, heq⟩ := updateFirst_spec p g xs f h
        refine ⟨i + 1, by simpa using Nat.succ_lt_succ hi, ?_, ?_⟩
        · simpa using hget
        · simp [updateFirst, hp, heq]

/-- The duplicate triple is symmetric. -/
theorem recTriple_symm {g h : FileRec} (hgh : recTriple g h) : recTriple h g := by
  obtain ⟨h1, h2, h3⟩ := hgh
  refine ⟨h1.symm, h2.symm, ?_⟩
  have hneg : h.lastModified - g.lastModified = -(g.lastModified - h.lastModified) := by ring
  rw [hneg, Int.natAbs_neg]
  exact h3

/-- The rendering gate of `saveFileContent` coincides with the record's
media classification being textual or markup/HTML. -/
theorem hasContentEditor_iff (f : FileRec) :
    hasContentEditor f = true ↔ (mediaTypeOf f = .textual ∨ mediaTypeOf f = .html) := by
  unfold hasContentEditor mediaTypeOf
  cases hH : f.isHTML <;> cases hI : f.isImage <;> cases hV : f.isVideo <;>
    cases hA : f.isAudio <;> cases hB : f.isBinary <;> simp

/-- Helper: `findAllMatches` is the record-ordered concatenation of per-record
name matches followed by content matches. -/
theorem findAllMatches_eq_flatMap (files : List FileRec) (term : List Char) :
    findAllMatches files term
      = files.flatMap (fun f => nameMatchesOf f term ++ contentMatchesOf f term) := by
  have key : ∀ (l : List FileRec) (acc : List SearchMatch),
      l.foldl (fun a f => (a ++ nameMatchesOf f term) ++ contentMatchesOf f term) acc
        = acc ++ l.flatMap (fun f => nameMatchesOf f term ++ contentMatchesOf f term) := by
    intro l
    induction l with
    | nil => intro acc; simp
    | cons x xs ih =>
        intro acc
        rw [List.foldl_cons, ih, List.flatMap_cons]
        simp [List.append_assoc]
  simpa [findAllMatches] using key files []

/-- Reinserting the erased element at its own index restores the list. -/
theorem insertIdx_get_eraseIdx {α : Type} :
    ∀ (l : List α) (i : Nat) (hi : i < l.length),
      (l.eraseIdx i).insertIdx i (l.get ⟨i, hi⟩) = l
  | _ :: _, 0, _ => rfl
  | x :: xs, i + 1, hi => by
      simp only [List.eraseIdx_cons_succ, List.insertIdx_succ_cons, List.get_cons_succ]
      exact congrArg (x :: ·) (insertIdx_get_eraseIdx xs i (by simpa using hi))

/-- Looking up the key just written by `setChild`. -/
theorem lookupChild_setChild_self (k : List Char) (v : JTree) :
    ∀ cs, lookupChild k (setChild k v cs) = some v
  | [] => by simp [setChild, lookupChild]
  | (q, w) :: rest => by
      by_cases hq : q = k
      · simp [setChild, lookupChild, hq]
      · simp [setChild, lookupChild, hq, lookupChild_setChild_self k v rest]

/-- Helper: `setChild` at one key does not disturb lookups of another key. -/
theorem lookupChild_setChild_ne (k k2 : List Char) (v : JTree) (hne : k2 ≠ k) :
    ∀ cs, lookupChild k2 (setChild k v cs) = lookupChild k2 cs
  | [] => by simp [setChild, lookupChild, Ne.symm hne]
  | (q, w) :: rest => by
      by_cases hq : q = k
      · subst hq
        simp [setChild, lookupChild, Ne.symm hne]
      · simp [setChild, lookupChild, hq, lookupChild_setChild_ne k k2 v hne rest]

/-- A key found before an append is still found, unchanged, after it. -/
theorem lookupChild_append_of_some (k : List Char) (v : JTree) :
    ∀ cs ds, lookupChild k cs = some v → lookupChild k (cs ++ ds) = some v
  | [], _, h => by exact absurd h (by simp [lookupChild])
  | (q, w) :: rest, ds, h => by
      by_cases hq : q = k
      · simpa [lookupChild, hq] using h
      · rw [List.cons_append]
        simp only [lookupChild, hq, if_false] at h ⊢
        exact lookupChild_append_of_some k v rest ds h

/-- Helper: `insertPath` never changes the `__isFile` marker or the `__file`
reference of the node it starts from — it only ever extends children. -/
theorem insertPath_preserves_root (t : JTree) (parts : List (List Char)) (fid : Nat) :
    (insertPath t parts fid).isFile = t.isFile ∧ (insertPath t parts fid).fileId = t.fileId := by
  cases parts with
  | nil => exact ⟨rfl, rfl⟩
  | cons p rest =>
      cases rest with
      | nil =>
          cases h : lookupChild p t.children <;>
            simp [insertPath, h, JTree.isFile, JTree.fileId]
      | cons q rest2 =>
          cases h : lookupChild p t.children <;>
            simp [insertPath, h, JTree.isFile, JTree.fileId]

/-! ### Claim theorems -/

/-- C3 (amended): in `buildFileTree`, conflicting types at a segment are
resolved FIRST-write-wins, not last-write-wins: `insertPath` never changes
the `__isFile` marker or `__file` reference of the node it starts from nor
of any existing child — a later conflicting record only extends a node's
children (directory path descending into an existing file node) or, when a
file path ends at an existing slot, changes nothing at all. -/
theorem C3_first_write_wins (t : JTree) (parts : List (List Char)) (fid : Nat) :
    ((insertPath t parts fid).isFile = t.isFile ∧ (insertPath t parts fid).fileId = t.fileId)
    ∧ (∀ k sub, lookupChild k t.children = some sub →
        ∃ subNew, lookupChild k (insertPath t parts fid).children = some subNew ∧
          subNew.isFile = sub.isFile ∧ subNew.fileId = sub.fileId)
    ∧ (∀ p sub, lookupChild p t.children = some sub → insertPath t [p] fid = t) := by
  obtain ⟨tb, ti, tcs⟩ := t
  refine ⟨insertPath_preserves_root _ parts fid, ?_, ?_⟩
  · intro k sub hk
    simp only [JTree.children] at hk
    cases parts with
    | nil => exact ⟨sub, hk, rfl, rfl⟩
    | cons p rest =>
        cases rest with
        | nil =>
            cases h : lookupChild p tcs with
            | some w =>
                refine ⟨sub, ?_, rfl, rfl⟩
                simp only [insertPath, JTree.children, h]
                exact hk
            | none =>
                refine ⟨sub, ?_, rfl, rfl⟩
                simp only [insertPath, JTree.children, h]
                exact lookupChild_append_of_some k sub tcs _ hk
        | cons q rest2 =>
            cases h : lookupChild p tcs with
            | some w =>
                by_cases hkp : k = p
                · subst hkp
                  have hws : w = sub := by
                    rw [hk] at h
                    exact (Option.some.inj h).symm
                  refine ⟨insertPath w (q :: rest2) fid, ?_, ?_, ?_⟩
                  · simp only [insertPath, JTree.children, h]
                    exact lookupChild_setChild_self k _ tcs
                  · rw [(insertPath_preserves_root w (q :: rest2) fid).1, hws]
                  · rw [(insertPath_preserves_root w (q :: rest2) fid).2, hws]
                · refine ⟨sub, ?_, rfl, rfl⟩
                  simp only [insertPath, JTree.children, h]
                  rw [lookupChild_setChild_ne p k _ hkp tcs]
                  exact hk
            | none =>
                refine ⟨sub, ?_, rfl, rfl⟩
                simp only [insertPath, JTree.children, h]
                exact lookupChild_append_of_some k sub tcs _ hk
  · intro p sub hp
    simp only [JTree.children] at hp
    simp [insertPath, JTree.children, hp]

/-- C3 counterexample: with a file record at path `a` and a nested record
at path `a/b`, the node slot at segment `a` keeps the FIRST record's type
and file reference in both processing orders (the later record merely adds
a child, or is dropped), refuting last-write-wins: in order
`[treeRecA, treeRecB]` the slot would have to be the directory produced by
`treeRecB`, and in order `[treeRecB, treeRecA]` it would have to be
`treeRecA`'s file node. -/
theorem C3_counterexample :
    (lookupChild "a".toList (buildFileTree [treeRecA, treeRecB] true).children).map JTree.isFile
        = some true
    ∧ (lookupChild "a".toList (buildFileTree [treeRecA, treeRecB] true).children).map JTree.fileId
        = some (some treeRecA.id)
    ∧ (lookupChild "a".toList (buildFileTree [treeRecB, treeRecA] true).children).map JTree.isFile
        = some false
    ∧ (lookupChild "a".toList (buildFileTree [treeRecB, treeRecA] true).children).map JTree.fileId
        = some none
    ∧ treeRecA.id ≠ treeRecB.id :=
  ⟨rfl, rfl, rfl, rfl, by decide⟩

/-- C3 witness: the general first-write-wins theorem applied to the
concrete conflicting insertion of `a/b` into a tree already holding a file
node at `a`. -/
theorem C3_witness :
    ∃ subNew,
      lookupChild "a".toList
          (insertPath (buildFileTree [treeRecA] true) (splitOnSlash "a/b".toList) 2).children
        = some subNew
      ∧ subNew.isFile = (JTree.node true (some 1) []).isFile
      ∧ subNew.fileId = (JTree.node true (some 1) []).fileId :=
  (C3_first_write_wins (buildFileTree [treeRecA] true) (splitOnSlash "a/b".toList) 2).2.1
    "a".toList (JTree.node true (some 1) []) rfl

/-- C10: while a non-empty search term is active (stored terms are
lowercased on entry), `renderFiles` displays exactly the records whose
name contains the term case-insensitively or whose content is a string
containing the term case-insensitively — non-textual records with string
content included. -/
theorem C10_render_filter (files : List FileRec) (term : List Char)
    (hlow : lowerStr term = term) (hne : term ≠ []) :
    renderFilteredFiles files term = files.filter (specRenderPred term) := by
  unfold renderFilteredFiles specRenderPred containsCI
  have hie : ¬ (term.isEmpty = true) := by simpa [List.isEmpty_iff] using hne
  rw [if_neg hie]
  apply List.filter_congr
  intro f _
  rw [hlow]

/-- C10 witness: the filter characterization at a concrete store and
term. -/
theorem C10_witness :
    renderFilteredFiles [imgRec] ['p'] = [imgRec].filter (specRenderPred ['p']) :=
  C10_render_filter [imgRec] ['p'] rfl (by decide)

/-- C4 counterexample: an image record's content is a data-URL string and
is NOT excluded from the content scan — searching for `base64` over a
store holding only `imgRec` (whose `mediaType` is image) yields a content
match, refuting the claim that content of image records contributes no
matches. -/
theorem C4_counterexample :
    mediaTypeOf imgRec = MediaType.image
    ∧ findAllMatches [imgRec] "base64".toList
        = [{ fileId := 7, field := .content, position := 15, matchIndex := 0 }] :=
  ⟨rfl, rfl⟩

/-- C4 (amended): search recompute scans each record's name, and scans
content exactly when the content is a string and the record's binary flag
is off (so image/video/audio data-URL strings ARE scanned, while binary
records and buffer contents contribute nothing); matches are collected in
record order with name matches before content matches within a record. -/
theorem C4_match_structure (files : List FileRec) (term : List Char) :
    findAllMatches files term
        = files.flatMap (fun f => nameMatchesOf f term ++ contentMatchesOf f term)
    ∧ (∀ f : FileRec, f.isBinary = true → contentMatchesOf f term = [])
    ∧ (∀ (f : FileRec) (bs : List Nat), f.content = .buffer bs → contentMatchesOf f term = []) := by
  refine ⟨findAllMatches_eq_flatMap files term, ?_, ?_⟩
  · intro f hb
    unfold contentMatchesOf
    cases hc : f.content with
    | str s => simp [hb]
    | buffer bs => rfl
  · intro f bs hc
    unfold contentMatchesOf
    rw [hc]

/-- C4 witness: the structure theorem applied to a concrete binary
record. -/
theorem C4_witness : contentMatchesOf binRec ['a'] = [] :=
  (C4_match_structure [binRec] ['a']).2.1 binRec rfl

/-- C1 counterexample: an HTML record's `mediaType` is markup/HTML — a
non-textual classification in the spec's taxonomy — yet `saveFileContent`
succeeds on it and replaces its content, refuting the claim that
`editContent` fails with `NotEditableError` for every non-textual record
and succeeds only for textual ones. -/
theorem C1_counterexample :
    mediaTypeOf htmlRec ≠ MediaType.textual
    ∧ (saveFileContent [htmlRec] 3 "yz".toList).2 = EditResult.success
    ∧ (saveFileContent [htmlRec] 3 "yz".toList).1 ≠ [htmlRec] := by decide

/-- C1 (amended): `editContent` fails (the rendering provides no edit
textarea, surfaced as the NotEditableError path) and leaves the store
untouched for every record classified image, video, audio or binary; it
succeeds — replacing `content` and recomputing `size` — exactly for
records classified textual or markup/HTML, leaving every other record and
every position unchanged. -/
theorem C1_edit_gate (files : List FileRec) (fid : Nat) (nc : List Char) (f : FileRec)
    (hfind : files.find? (fun r => r.id == fid) = some f) :
    ((mediaTypeOf f = .image ∨ mediaTypeOf f = .video ∨ mediaTypeOf f = .audio ∨
        mediaTypeOf f = .binary) →
      saveFileContent files fid nc = (files, .noEditor))
    ∧ ((mediaTypeOf f = .textual ∨ mediaTypeOf f = .html) →
        (saveFileContent files fid nc).2 = .success
        ∧ ∃ i, ∃ hi : i < files.length, files.get ⟨i, hi⟩ = f ∧
            (saveFileContent files fid nc).1 =
              files.set i { f with content := .str nc, size := jsStringLength nc }) := by
  constructor
  · intro hmt
    have hed : hasContentEditor f = false := by
      cases he : hasContentEditor f
      · rfl
      · rcases (hasContentEditor_iff f).mp he with h | h <;>
          rcases hmt with h2 | h2 | h2 | h2 <;> rw [h] at h2 <;> exact absurd h2 (by decide)
    simp [saveFileContent, hfind, hed]
  · intro hmt
    have hed : hasContentEditor f = true := (hasContentEditor_iff f).mpr hmt
    obtain ⟨i, hi, hget, heq⟩ := updateFirst_spec (fun r => r.id == fid)
      (fun g => { g with content := .str nc, size := jsStringLength nc }) files f hfind
    constructor
    · simp [saveFileContent, hfind, hed]
    · exact ⟨i, hi, hget, by simp [saveFileContent, hfind, hed, heq]⟩

/-- C1 witness: the gate theorem applied to a concrete image record. -/
theorem C1_witness : saveFileContent [imgRec] 7 ['z'] = ([imgRec], EditResult.noEditor) :=
  (C1_edit_gate [imgRec] 7 ['z'] imgRec rfl).1 (Or.inl rfl)

/-- C2 counterexample: renaming a record whose `relativePath` is
`dir/a.txt` to `b.txt` succeeds but sets the whole `relativePath` to the
bare `b.txt`, not to `dir/b.txt` — the directory prefix captured at
ingestion is discarded, refuting the claim that only the leaf segment
changes. -/
theorem C2_counterexample :
    (saveFileName [dirRec] 1 "b.txt".toList).2 = RenameResult.success
    ∧ ((saveFileName [dirRec] 1 "b.txt".toList).1.map FileRec.relativePath = ["b.txt".toList])
    ∧ dirRec.relativePath = "dir/a.txt".toList
    ∧ "b.txt".toList ≠ "dir/b.txt".toList := by decide

/-- C2 (amended): a successful rename sets both `name` and the ENTIRE
`relativePath` to the new name (the directory prefix is discarded), the
renamed record keeps its position in the sequence, and every other record
is untouched. -/
theorem C2_rename_path (files : List FileRec) (fid : Nat) (raw : List Char) (f : FileRec)
    (hfind : files.find? (fun r => r.id == fid) = some f)
    (hne : jsTrim raw ≠ []) (hval : (jsTrim raw).any reservedChar = false) :
    (saveFileName files fid raw).2 = .success
    ∧ ∃ i, ∃ hi : i < files.length, files.get ⟨i, hi⟩ = f ∧
        (saveFileName files fid raw).1 =
          files.set i { f with name := jsTrim raw, relativePath := jsTrim raw } := by
  have hie : (jsTrim raw).isEmpty = false := by
    cases hh : (jsTrim raw).isEmpty
    · rfl
    · exact absurd (List.isEmpty_iff.mp hh) hne
  obtain ⟨i, hi, hget, heq⟩ := updateFirst_spec (fun r => r.id == fid)
    (fun g => { g with name := jsTrim raw, relativePath := jsTrim raw }) files f hfind
  constructor
  · simp [saveFileName, hfind, hie, hval]
  · exact ⟨i, hi, hget, by simp [saveFileName, hfind, hie, hval, heq]⟩

/-- C2 witness: the rename theorem applied to the concrete record with a
directory prefix. -/
theorem C2_witness : (saveFileName [dirRec] 1 "b.txt".toList).2 = RenameResult.success :=
  (C2_rename_path [dirRec] 1 "b.txt".toList dirRec rfl (by decide) (by decide)).1

/-- C9 counterexample: editing a textual record's content to the one
non-ASCII character U+00E9 sets `size` to the JS string length 1, while
the UTF-8 byte length of the new content is 2 — `size` after an edit is
not the byte length. -/
theorem C9_counterexample :
    (saveFileContent [txtRec] 5 ['é']).2 = EditResult.success
    ∧ ((saveFileContent [txtRec] 5 ['é']).1.map FileRec.size = [1])
    ∧ utf8ByteLength ['é'] = 2 := by decide

/-- C9 (amended): after a successful `editContent` the record's `size`
equals the JS string length (UTF-16 code-unit count) of the new content —
which coincides with the UTF-8 byte length exactly on ASCII content. -/
theorem C9_size_after_edit (files : List FileRec) (fid : Nat) (nc : List Char) (f : FileRec)
    (hfind : files.find? (fun r => r.id == fid) = some f)
    (hed : hasContentEditor f = true) :
    (saveFileContent files fid nc).2 = .success
    ∧ (∃ i, ∃ hi : i < files.length, files.get ⟨i, hi⟩ = f ∧
        (saveFileContent files fid nc).1 =
          files.set i { f with content := .str nc, size := jsStringLength nc })
    ∧ ((∀ c ∈ nc, c.toNat ≤ 0x7F) → jsStringLength nc = utf8ByteLength nc) := by
  obtain ⟨i, hi, hget, heq⟩ := updateFirst_spec (fun r => r.id == fid)
    (fun g => { g with content := .str nc, size := jsStringLength nc }) files f hfind
  refine ⟨?_, ⟨i, hi, hget, ?_⟩, ?_⟩
  · simp [saveFileContent, hfind, hed]
  · simp [saveFileContent, hfind, hed, heq]
  · intro hascii
    unfold jsStringLength utf8ByteLength
    apply congrArg List.sum
    apply List.map_congr_left
    intro c hc
    have h1 := hascii c hc
    unfold utf16Units utf8Bytes
    rw [if_pos (by omega), if_pos h1]

/-- C9 witness: the size theorem applied at ASCII content, where JS length
and byte length agree. -/
theorem C9_witness : jsStringLength ['a', 'b'] = utf8ByteLength ['a', 'b'] :=
  (C9_size_after_edit [txtRec] 5 ['a', 'b'] txtRec rfl rfl).2.2 (by decide)

/-- C7 counterexample: a rename input containing the control character
U+0001 (and no reserved character) is ACCEPTED — the rename succeeds and
changes the name — refuting the claim that rename rejects names with
control characters. -/
theorem C7_counterexample :
    ctrlName.any (fun c => decide (c.toNat < 0x20)) = true
    ∧ (saveFileName [ctrlRec] 9 ctrlName).2 = RenameResult.success
    ∧ ((saveFileName [ctrlRec] 9 ctrlName).1.map FileRec.name = [ctrlName])
    ∧ ctrlName ≠ ctrlRec.name := by decide

/-- C7 (amended): rename fails with a validation error when the trimmed
name is empty or contains one of the reserved characters
`< > : double-quote / backslash | ? *`, and every rejection leaves the
store — hence the record's `name` and `relativePath` — unchanged; control
characters, unlike in the ingestion filename check, are NOT rejected. -/
theorem C7_rename_validation (files : List FileRec) (fid : Nat) (raw : List Char) :
    ((saveFileName files fid raw).2 ≠ .success → (saveFileName files fid raw).1 = files)
    ∧ (∀ f, files.find? (fun r => r.id == fid) = some f →
        (jsTrim raw = [] → saveFileName files fid raw = (files, .emptyName))
        ∧ ((jsTrim raw).any reservedChar = true →
            saveFileName files fid raw = (files, .invalidName))) := by
  constructor
  · intro hns
    cases hfind : files.find? (fun r => r.id == fid) with
    | none => simp [saveFileName, hfind]
    | some f =>
        cases hie : (jsTrim raw).isEmpty
        · cases hany : (jsTrim raw).any reservedChar
          · exact absurd (by simp [saveFileName, hfind, hie, hany]) hns
          · simp [saveFileName, hfind, hie, hany]
        · simp [saveFileName, hfind, hie]
  · intro f hfind
    constructor
    · intro hnil
      have hie : (jsTrim raw).isEmpty = true := by simp [List.isEmpty_iff, hnil]
      simp [saveFileName, hfind, hie]
    · intro hany
      have hne2 : jsTrim raw ≠ [] := by
        intro hh
        rw [hh] at hany
        simp at hany
      have hie : (jsTrim raw).isEmpty = false := by
        cases hh : (jsTrim raw).isEmpty
        · rfl
        · exact absurd (List.isEmpty_iff.mp hh) hne2
      simp [saveFileName, hfind, hie, hany]

/-- C7 witness: the validation theorem applied to a concrete
reserved-character rename. -/
theorem C7_witness : saveFileName [txtRec] 5 "a<b".toList = ([txtRec], RenameResult.invalidName) :=
  ((C7_rename_validation [txtRec] 5 "a<b".toList).2 txtRec rfl).2 (by decide)

/-- C5 counterexample: the store `[dupRecA, dupRecB]` is duplicate-free
(names differ), but renaming `dupRecB` to `dupRecA`'s name succeeds — the
rename path performs no duplicate check — and leaves two live records with
identical name, size and modification time, refuting the claim that the
uniqueness invariant is preserved by every operation. -/
theorem C5_counterexample :
    dupFree dupStore
    ∧ (saveFileName dupStore 2 "a.txt".toList).2 = RenameResult.success
    ∧ ¬ dupFree (saveFileName dupStore 2 "a.txt".toList).1 := by decide

/-- C5 (amended): the (name, size, approximate-time) uniqueness holds at
ingestion because the duplicate check rejects such inputs, but it is NOT
an invariant of the session: whenever some other live record has the same
size and a timestamp within one second, renaming a record to that record's
name succeeds and leaves the store with two live records sharing the
triple. -/
theorem C5_rename_breaks_dedup (files : List FileRec) (fid : Nat) (raw : List Char)
    (f g : FileRec)
    (hfind : files.find? (fun r => r.id == fid) = some f)
    (hg : g ∈ files) (hgid : g.id ≠ fid)
    (hname : jsTrim raw = g.name)
    (hnonempty : g.name ≠ [])
    (hval : g.name.any reservedChar = false)
    (hsize : f.size = g.size)
    (htime : (f.lastModified - g.lastModified).natAbs < 1000) :
    (saveFileName files fid raw).2 = .success
    ∧ ¬ dupFree (saveFileName files fid raw).1 := by
  have hie : (jsTrim raw).isEmpty = false := by
    rw [hname]
    cases hh : g.name.isEmpty
    · rfl
    · exact absurd (List.isEmpty_iff.mp hh) hnonempty
  have hany : (jsTrim raw).any reservedChar = false := by rw [hname, hval]
  obtain ⟨i, hi, hget, heq⟩ := updateFirst_spec (fun r => r.id == fid)
    (fun r => { r with name := jsTrim raw, relativePath := jsTrim raw }) files f hfind
  have hres : saveFileName files fid raw =
      (files.set i { f with name := jsTrim raw, relativePath := jsTrim raw }, .success) := by
    simp [saveFileName, hfind, hie, hany, heq]
  have hres1 : (saveFileName files fid raw).1 =
      files.set i { f with name := jsTrim raw, relativePath := jsTrim raw } := by rw [hres]
  have hres2 : (saveFileName files fid raw).2 = RenameResult.success := by rw [hres]
  refine ⟨hres2, ?_⟩
  intro hpair
  rw [hres1] at hpair
  unfold dupFree at hpair
  rw [List.pairwise_iff_get] at hpair
  obtain ⟨⟨j, hj⟩, hgj⟩ := List.mem_iff_get.mp hg
  have hfid : f.id = fid := by simpa using List.find?_some hfind
  have hji : j ≠ i := by
    intro hh
    subst hh
    have hfg : f = g := by rw [← hget, ← hgj]
    exact hgid (by rw [← hfg, hfid])
  have hlt : i < (files.set i { f with name := jsTrim raw, relativePath := jsTrim raw }).length := by
    simpa using hi
  have hjlt : j < (files.set i { f with name := jsTrim raw, relativePath := jsTrim raw }).length := by
    simpa using hj
  have hgetI : (files.set i { f with name := jsTrim raw, relativePath := jsTrim raw }).get ⟨i, hlt⟩
      = { f with name := jsTrim raw, relativePath := jsTrim raw } := by
    simp [List.get_eq_getElem, List.getElem_set_self]
  have hgetJ : (files.set i { f with name := jsTrim raw, relativePath := jsTrim raw }).get ⟨j, hjlt⟩
      = g := by
    rw [List.get_eq_getElem, List.getElem_set_ne (fun hh => hji hh.symm)]
    rw [← List.get_eq_getElem files ⟨j, hj⟩]
    exact hgj
  have htrip : recTriple ({ f with name := jsTrim raw, relativePath := jsTrim raw }) g :=
    ⟨by simpa using hname, hsize, htime⟩
  rcases Nat.lt_or_ge i j with hij | hij
  · exact hpair ⟨i, hlt⟩ ⟨j, hjlt⟩ hij (by rw [hgetI, hgetJ]; exact htrip)
  · have hji2 : j < i := by omega
    exact hpair ⟨j, hjlt⟩ ⟨i, hlt⟩ hji2 (by rw [hgetI, hgetJ]; exact recTriple_symm htrip)

/-- C5 witness: the general break-the-invariant theorem applied to the
concrete duplicate-free store. -/
theorem C5_witness :
    (saveFileName dupStore 2 "a.txt".toList).2 = RenameResult.success
    ∧ ¬ dupFree (saveFileName dupStore 2 "a.txt".toList).1 :=
  C5_rename_breaks_dedup dupStore 2 "a.txt".toList dupRecB dupRecA rfl
    (by decide) (by decide) (by decide) (by decide) (by decide) (by decide) (by decide)

/-- C6: an ingested input that passes the size and type checks is rejected
as a duplicate exactly when some live record matches it on name, size, and
modification time strictly within 1000 milliseconds; and an input
differing from every live record in at least one of the three is never
rejected by the duplicate check. -/
theorem C6_duplicate_detection (existing : List FileRec) (f : RawFile) :
    (f.size ≠ 0 → f.size ≤ maxFileSize →
        (allowedTypes.contains f.type || isTextFile f.name) = true →
        (validateOne existing f = some .duplicate ↔ ∃ g ∈ existing, sameTriple g f))
    ∧ ((∀ g ∈ existing, ¬ sameTriple g f) → validateOne existing f ≠ some .duplicate) := by
  have hdup_iff : isDuplicate existing f = true ↔ ∃ g ∈ existing, sameTriple g f := by
    simp [isDuplicate, List.any_eq_true]
  constructor
  · intro h0 hmax htype
    have h2 : ¬ f.size > maxFileSize := by omega
    have h3 : (!(allowedTypes.contains f.type) && !(isTextFile f.name)) = false := by
      cases ha : allowedTypes.contains f.type <;> cases hb : isTextFile f.name <;> simp_all
    rw [← hdup_iff]
    unfold validateOne
    rw [if_neg h0, if_neg h2]
    simp only [h3, Bool.false_eq_true, if_false]
    cases hdup : isDuplicate existing f
    · simp only [Bool.false_eq_true, if_false]
      cases h4 : f.name.any invalidFilenameChar <;> simp
    · simp
  · intro hall hv
    have hdup : isDuplicate existing f = false := by
      cases hd : isDuplicate existing f
      · rfl
      · obtain ⟨g, hgmem, hgt⟩ := hdup_iff.mp hd
        exact absurd hgt (hall g hgmem)
    unfold validateOne at hv
    split at hv
    · simp at hv
    · split at hv
      · simp at hv
      · split at hv
        · simp at hv
        · split at hv
          · next hcond =>
              rw [hdup] at hcond
              simp at hcond
          · split at hv <;> simp at hv

/-- C6 witness: the duplicate-detection theorem applied to a concrete
input matching `txtRec` with a 500ms timestamp skew. -/
theorem C6_witness : validateOne [txtRec] rawDup = some RejectReason.duplicate :=
  ((C6_duplicate_detection [txtRec] rawDup).1 (by decide) (by decide) (by decide)).mpr
    ⟨txtRec, by decide, by decide⟩

/-- C8: a drag-reorder from index `i` to distinct index `j` is undone by
the inverse move from the record's landing index back to `i` (with the
index adjustment the splice causes: landing index is `j - 1` when moving
down and `j` when moving up, and the return target must be `i + 1` when
the element returns downward-to-upward), restoring the original order of
the sequence. -/
theorem C8_move_roundtrip {α : Type} (l : List α) (i j : Nat)
    (hi : i < l.length) (hj : j < l.length) (hij : i ≠ j) :
    moveFile (moveFile l i j) (if i < j then j - 1 else j) (if i < j then i else i + 1) = l := by
  have hget : l[i]? = some (l.get ⟨i, hi⟩) := by
    rw [List.getElem?_eq_getElem hi, List.get_eq_getElem]
  have hm : moveFile l i j =
      (l.eraseIdx i).insertIdx (if i < j then j - 1 else j) (l.get ⟨i, hi⟩) := by
    simp [moveFile, hij, hget]
  have helen : (l.eraseIdx i).length = l.length - 1 := by
    rw [List.length_eraseIdx]
    simp [hi]
  rcases Nat.lt_or_ge i j with hlt | hge
  · rw [hm]
    simp only [if_pos hlt]
    have htle : j - 1 ≤ (l.eraseIdx i).length := by omega
    by_cases hadj : j = i + 1
    · subst hadj
      simp only [Nat.add_sub_cancel]
      rw [insertIdx_get_eraseIdx l i hi]
      simp [moveFile]
    · have hne2 : j - 1 ≠ i := by omega
      have hlen2 : ((l.eraseIdx i).insertIdx (j - 1) (l.get ⟨i, hi⟩)).length = l.length := by
        rw [List.length_insertIdx _ _ htle, helen]
        omega
      have hgetm : ((l.eraseIdx i).insertIdx (j - 1) (l.get ⟨i, hi⟩))[j - 1]? =
          some (l.get ⟨i, hi⟩) := by
        rw [List.getElem?_eq_getElem (by omega)]
        rw [List.getElem_insertIdx_self _ _ _ htle]
      simp only [moveFile, hne2, if_false, hgetm]
      rw [if_neg (by omega : ¬ (j - 1 < i))]
      rw [List.eraseIdx_insertIdx]
      exact insertIdx_get_eraseIdx l i hi
  · have hlt2 : j < i := by omega
    rw [hm]
    simp only [if_neg (show ¬ i < j by omega)]
    have htle : j ≤ (l.eraseIdx i).length := by omega
    have hlen2 : ((l.eraseIdx i).insertIdx j (l.get ⟨i, hi⟩)).length = l.length := by
      rw [List.length_insertIdx _ _ htle, helen]
      omega
    have hgetm : ((l.eraseIdx i).insertIdx j (l.get ⟨i, hi⟩))[j]? = some (l.get ⟨i, hi⟩) := by
      rw [List.getElem?_eq_getElem (by omega)]
      rw [List.getElem_insertIdx_self _ _ _ htle]
    have hne2 : j ≠ i + 1 := by omega
    simp only [moveFile, hne2, if_false, hgetm]
    rw [if_pos (by omega : j < i + 1)]
    simp only [Nat.add_sub_cancel]
    rw [List.eraseIdx_insertIdx]
    exact insertIdx_get_eraseIdx l i hi

/-- C8 witness: the round-trip theorem applied to a concrete four-element
reorder. -/
theorem C8_witness :
    moveFile (moveFile ([10, 20, 30, 40] : List Nat) 0 2) 1 0 = [10, 20, 30, 40] := by
  have h := C8_move_roundtrip ([10, 20, 30, 40] : List Nat) 0 2 (by decide) (by decide) (by decide)
  simpa using h

end AFM
